import Mathlib

/-
  Verification of the scale-climber core against its specification.

  Shallow embedding of:
  - src/components/Tower.tsx      (scale position mapper, warp, continuity state)
  - src/services/audioAnalyzer.ts (pitch estimator, note namer, analyzer stop)
  - src/unnamed/part_000          (App session lifecycle: stopListening)

  Numeric values are modelled over ℚ (the source's decimal literals are exact
  rationals).  The one non-rational ingredient, the rounded MIDI note number
  n = Math.round(12*Math.log2(f/440) + 69), is taken as a function parameter
  nn : ℚ → ℤ wherever a claim does not depend on its values.
-/

/-! ### Scale Position Mapper (src/components/Tower.tsx) -/

/-- One entry of a scale definition: a frequency paired with its scale index.
These are the objects produced by generateScaleData and consumed by Tower. -/
structure ScaleTone where
  freq : ℚ
  index : ℕ
  deriving DecidableEq

/-- The piecewise remap applied to the interpolation fraction inside
getWarpedFraction (Tower.tsx lines 29-45): the three-segment map is used
exactly when the bracketing tones are a whole tone, 2 semitones, apart;
otherwise the fraction passes through unchanged.  The source's decimal
literals are the exact rationals 0.375 = 3/8, 0.45 = 9/20, 0.625 = 5/8,
0.55 = 11/20, 0.25 = 1/4, 0.1 = 1/10. -/
def warp (fraction : ℚ) (semitoneDist : ℕ) : ℚ :=
  if semitoneDist = 2 then
    if fraction < 3/8 then (fraction / (3/8)) * (9/20)
    else if fraction > 5/8 then 11/20 + ((fraction - 5/8) / (3/8)) * (9/20)
    else 9/20 + ((fraction - 3/8) / (1/4)) * (1/10)
  else fraction

/-- Tower.tsx getWarpedFraction.  The source computes the semitone distance
as Math.abs(n2 - n1) where n1, n2 are Math.round(12*Math.log2(f/440) + 69)
of the two bracketing frequencies.  That rounded MIDI note number is not
computable over ℚ, so the embedding takes the rounding function nn as a
parameter; every theorem below quantifies over nn, hence covers the source
instantiation. -/
def getWarpedFraction (nn : ℚ → ℤ) (fraction startFreq endFreq : ℚ) : ℚ :=
  warp fraction ((nn endFreq - nn startFreq).natAbs)

/-- The bracketing loop of calculateScalePosition (Tower.tsx lines 56-70):
scan adjacent tone pairs in order and return the first pair whose
frequencies enclose freq. -/
def findBracket (freq : ℚ) : List ScaleTone → Option (ScaleTone × ScaleTone)
  | a :: b :: rest =>
      if freq ≥ a.freq ∧ freq ≤ b.freq then some (a, b)
      else findBracket freq (b :: rest)
  | _ => none

/-- Tower.tsx calculateScalePosition.  The source's local constants
minFreq = scale[0].freq, maxFreq = scale[scale.length - 1].freq and
buffer = 15 are inlined.  The source reads scale[0] and
scale[scale.length - 1] unconditionally (callers always pass the 8-tone
definitions); the embedding uses getD with a dummy tone for totality. -/
def calculateScalePosition (nn : ℚ → ℤ) (freq : ℚ) (scale : List ScaleTone) : Option ℚ :=
  if freq < (scale.getD 0 ⟨0, 0⟩).freq - 15 ∨
      freq > (scale.getD (scale.length - 1) ⟨0, 0⟩).freq + 15 then none
  else
    match findBracket freq scale with
    | some (cur, next) =>
        some ((cur.index : ℚ) +
          getWarpedFraction nn ((freq - cur.freq) / (next.freq - cur.freq)) cur.freq next.freq)
    | none =>
        if freq ≥ (scale.getD 0 ⟨0, 0⟩).freq - 15 ∧ freq < (scale.getD 0 ⟨0, 0⟩).freq then some 0
        else if freq > (scale.getD (scale.length - 1) ⟨0, 0⟩).freq ∧
            freq ≤ (scale.getD (scale.length - 1) ⟨0, 0⟩).freq + 15 then some 7
        else none

/-- Tower.tsx getPosition: combine the low- and high-definition positions,
using the previously stored position (prevPositionRef, the Continuity
State) to disambiguate the overlap zone. -/
def getPosition (nn : ℚ → ℤ) (scaleLow scaleHigh : List ScaleTone)
    (prev : Option ℚ) (freq : ℚ) : Option ℚ :=
  if freq ≤ 0 then none
  else
    match calculateScalePosition nn freq scaleLow, calculateScalePosition nn freq scaleHigh with
    | some posLow, some posHigh =>
        match prev with
        | some p => if p > 7/2 then some posLow else some posHigh
        | none => some posLow
    | some posLow, none => some posLow
    | none, some posHigh => some posHigh
    | none, none => none

/-- Tower.tsx lines 110-114: the effect that stores a freshly computed
non-null position into prevPositionRef and leaves it untouched otherwise. -/
def towerPositionEffect (pos : Option ℚ) (prev : Option ℚ) : Option ℚ :=
  match pos with
  | some p => some p
  | none => prev

/-- Tower.tsx lines 135-138: the display-only rest convention, position
-0.5 while listening with a null position. -/
def renderPosition (pos : Option ℚ) (isListening : Bool) : Option ℚ :=
  match pos with
  | some p => some p
  | none => if isListening then some (-(1/2)) else none

/-- A well-formed scale definition: exactly 8 tones, tone i carries scale
index i, and the frequencies are strictly increasing. -/
def wellFormedScale (scale : List ScaleTone) : Prop :=
  scale.length = 8 ∧
  (∀ j : Fin scale.length, (scale.get j).index = j.val) ∧
  scale.Pairwise (fun a b => a.freq < b.freq)

instance (scale : List ScaleTone) : Decidable (wellFormedScale scale) := by
  unfold wellFormedScale
  infer_instance

/-- A concrete well-formed low scale definition used to evaluate the
theorems below on explicit inputs. -/
def lowScaleEx : List ScaleTone :=
  [⟨10, 0⟩, ⟨20, 1⟩, ⟨30, 2⟩, ⟨40, 3⟩, ⟨50, 4⟩, ⟨60, 5⟩, ⟨70, 6⟩, ⟨80, 7⟩]

/-- A concrete well-formed high scale definition, starting where lowScaleEx
ends so that frequency 80 is valid in both (the overlap zone). -/
def highScaleEx : List ScaleTone :=
  [⟨80, 0⟩, ⟨90, 1⟩, ⟨100, 2⟩, ⟨110, 3⟩, ⟨120, 4⟩, ⟨130, 5⟩, ⟨140, 6⟩, ⟨150, 7⟩]

/-- A concrete instantiation of the MIDI-rounding parameter, used only to
evaluate theorems on explicit inputs. -/
def constNN : ℚ → ℤ := fun _ => 0

/-! ### Note Namer (src/services/audioAnalyzer.ts getNoteName) -/

/-- The fixed 12-entry naming table of getNoteName, using flats Eb and Bb. -/
def noteStrings : List String :=
  ["C", "C#", "D", "Eb", "E", "F", "F#", "G", "G#", "A", "Bb", "B"]

/-- JavaScript Math.round: round half toward positive infinity, which
equals the floor of x + 1/2 for every input. -/
def jsRound (q : ℚ) : ℤ := ⌊q + 1/2⌋

/-- The rendering step described by the spec for the Note Namer: pitch
class name from the table at index ((k mod 12) + 12) mod 12 concatenated
with octave floor(k / 12) - 1, for a rounded note number k. -/
def renderFromRounded (k : ℤ) : String :=
  noteStrings.getD (((k % 12) + 12) % 12).toNat "" ++ toString (⌊(k : ℚ) / 12⌋ - 1)

/-- getNoteName of audioAnalyzer.ts, taking the fractional MIDI note
number n = 12 * log2(frequency / 440) + 69 as its input, since the
logarithm is not computable over ℚ.  Everything after that first line is
translated from the source: Math.round, the narrow-class adjustment for
table indices 1, 3, 8, 10 when the absolute deviation exceeds 0.25, and
the final pitch class and octave, Math.floor(rounded / 12) - 1, computed
from the possibly adjusted rounded value. -/
def getNoteNameQ (n : ℚ) : String :=
  let roundedNote := jsRound n
  let noteIndex := ((roundedNote % 12) + 12) % 12
  let diff := n - (roundedNote : ℚ)
  let adjusted :=
    if (([1, 3, 8, 10] : List ℤ).contains noteIndex) ∧ |diff| > 1/4 then
      if diff > 0 then roundedNote + 1 else roundedNote - 1
    else roundedNote
  noteStrings.getD (((adjusted % 12) + 12) % 12).toNat "" ++
    toString (⌊(adjusted : ℚ) / 12⌋ - 1)

/-! ### Pitch Estimator (src/services/audioAnalyzer.ts) -/

/-- Mean of squares of the frame, the square of rms in the source.  The
source compares rms = sqrt(rmsSqOf b) against 0.01; both sides being
nonnegative, that is equivalent to comparing rmsSqOf b against
0.0001 = 1/10000, which keeps the computation inside ℚ.  For an empty
frame the source computes sqrt(0/0) = NaN and NaN < 0.01 is false, so the
embedding guards the comparison with b.length > 0. -/
def rmsSqOf (b : List ℚ) : ℚ := (b.map fun x => x * x).sum / b.length

/-- The inner correlation sum of autoCorrelate at a given lag offset:
the sum over i < MAX_SAMPLES of |buffer[i] - buffer[i + offset]|.  All
reads are in range for offset < MAX_SAMPLES = SIZE / 2. -/
def similaritySum (b : List ℚ) (m offset : ℕ) : ℚ :=
  ((List.range m).map fun i => |b.getD i 0 - b.getD (i + offset) 0|).sum

/-- The normalized similarity score of a lag:
correlation = 1 - sum / MAX_SAMPLES. -/
def similarityAt (b : List ℚ) (m offset : ℕ) : ℚ :=
  1 - similaritySum b m offset / m

/-- The loop state of autoCorrelate: bestOffset (initially -1),
bestCorrelation (initially 0), foundGoodCorrelation (initially false),
lastCorrelation (initially 1), and the correlations array, which the
source allocates as a zero-filled Float32Array of length MAX_SAMPLES. -/
structure ScanState where
  bestOffset : ℤ
  bestCorrelation : ℚ
  foundGood : Bool
  lastCorrelation : ℚ
  correlations : List ℚ

def initScanState (m : ℕ) : ScanState :=
  ⟨-1, 0, false, 1, List.replicate m 0⟩

/-- Read of the correlations array at a signed index.  A read outside
[0, length) yields undefined in the source (JavaScript typed array); the
embedding makes such a read observable as none. -/
def zget (l : List ℚ) (i : ℤ) : Option ℚ :=
  if 0 ≤ i then l.get? i.toNat else none

/-- The early return of autoCorrelate (lines 86-90): the parabolic shift
from the neighbors at bestOffset - 1 and bestOffset + 1, scaled by the
fixed empirical constant 8, and the frequency
sampleRate / (bestOffset + 8 * shift).  The result is none exactly when
one of the three correlations reads is out of range. -/
def interpolate (sampleRate : ℚ) (st : ScanState) : Option ℚ :=
  match zget st.correlations (st.bestOffset + 1), zget st.correlations (st.bestOffset - 1),
      zget st.correlations st.bestOffset with
  | some cp, some cm, some c0 =>
      some (sampleRate / ((st.bestOffset : ℚ) + 8 * ((cp - cm) / c0)))
  | _, _, _ => none

/-- The code after the scan loop (autoCorrelate lines 94-97): fall back to
sampleRate / bestOffset when bestCorrelation > 0.01, otherwise the
no-pitch sentinel -1. -/
def scanFinish (sampleRate : ℚ) (st : ScanState) : ℚ :=
  if st.bestCorrelation > 1/100 then sampleRate / (st.bestOffset : ℚ) else -1

/-- The scan loop of autoCorrelate (lines 70-92), with fuel counting the
remaining offsets.  Each step computes the similarity at the current
offset, stores it into the correlations array, then either tracks a
qualifying peak (similarity above 0.9 and above the previous lag's
similarity), returns early through the parabolic interpolation at the
first non-qualifying lag after a peak was found, or moves on. -/
def autoScan (b : List ℚ) (sampleRate : ℚ) (m : ℕ) : ℕ → ℕ → ScanState → Option ℚ
  | 0, _, st => some (scanFinish sampleRate st)
  | fuel + 1, offset, st =>
      let correlation := similarityAt b m offset
      let st1 : ScanState := { st with correlations := st.correlations.set offset correlation }
      if correlation > 9/10 ∧ correlation > st.lastCorrelation then
        let st2 : ScanState :=
          if correlation > st.bestCorrelation then
            { st1 with
                foundGood := true
                bestCorrelation := correlation
                bestOffset := (offset : ℤ) }
          else { st1 with foundGood := true }
        autoScan b sampleRate m fuel (offset + 1) { st2 with lastCorrelation := correlation }
      else if st.foundGood then
        interpolate sampleRate st1
      else
        autoScan b sampleRate m fuel (offset + 1) { st1 with lastCorrelation := correlation }

/-- autoCorrelate of audioAnalyzer.ts.  SIZE is the frame length and
MAX_SAMPLES = floor(SIZE / 2).  The RMS gate compares squares, see
rmsSqOf; a frame of length 0 passes the gate in the source because
NaN < 0.01 is false, and its scan then runs zero iterations.  The result
is an Option only so that an out-of-range correlations read would be
observable as none; the value some (-1) is the no-pitch sentinel. -/
def autoCorrelate (b : List ℚ) (sampleRate : ℚ) : Option ℚ :=
  if b.length > 0 ∧ rmsSqOf b < 1/10000 then some (-1)
  else autoScan b sampleRate (b.length / 2) (b.length / 2) 0 (initScanState (b.length / 2))

/-- getPitch of audioAnalyzer.ts: -1 when no analyser or audio context is
attached, -1 when the frame RMS is below 0.01, otherwise the
autocorrelation result. -/
def getPitch (analyserPresent : Bool) (b : List ℚ) (sampleRate : ℚ) : Option ℚ :=
  if analyserPresent = false then some (-1)
  else if b.length > 0 ∧ rmsSqOf b < 1/10000 then some (-1)
  else autoCorrelate b sampleRate

/-- A lag qualifies during the scan when its similarity exceeds 0.9 and
exceeds the previous lag's similarity (the loop variable lastCorrelation,
initially 1). -/
def qualifiesAt (b : List ℚ) (m offset : ℕ) : Prop :=
  similarityAt b m offset > 9/10 ∧
    similarityAt b m offset > (if offset = 0 then 1 else similarityAt b m (offset - 1))

instance (b : List ℚ) (m offset : ℕ) : Decidable (qualifiesAt b m offset) := by
  unfold qualifiesAt
  infer_instance

/-! ### Session lifecycle (src/unnamed/part_000 App, AudioAnalyzer.stop, Tower refs) -/

/-- The cross-component session state: the analyzer's resource fields
(audio context, analyser, media-source connection), the App state (poll
interval handle, isListening flag, last published pitch), and the Tower
refs: prevPositionRef — the Continuity State — plus the note-label rate
limiter timestamp lastNoteUpdateRef and the displayed label text. -/
structure SessionState where
  audioContextPresent : Bool
  analyserPresent : Bool
  mediaSourceConnected : Bool
  intervalActive : Bool
  isListening : Bool
  pitch : ℚ
  prevPosition : Option ℚ
  lastNoteUpdate : ℚ
  displayedNote : String

/-- AudioAnalyzer.stop (audioAnalyzer.ts lines 21-30): disconnect the
media source, close the audio context, and null the audioContext and
analyser fields. -/
def analyzerStop (s : SessionState) : SessionState :=
  { s with
      mediaSourceConnected := false
      audioContextPresent := false
      analyserPresent := false }

/-- stopListening of the App (src/unnamed/part_000 lines 53-63): stop the
analyzer, clear the poll interval, leave listening mode, and reset the
published pitch to the sentinel -1.  It does not touch the Tower refs. -/
def stopListening (s : SessionState) : SessionState :=
  { analyzerStop s with
      intervalActive := false
      isListening := false
      pitch := -1 }

/-- The Tower position effect (Tower.tsx lines 110-114) lifted to the
session state: a non-null freshly computed position is stored into
prevPositionRef, a null one leaves it unchanged. -/
def sessionPositionEffect (nn : ℚ → ℤ) (low high : List ScaleTone)
    (s : SessionState) : SessionState :=
  { s with prevPosition :=
      towerPositionEffect (getPosition nn low high s.prevPosition s.pitch) s.prevPosition }

/-- The throttled note-label effect (Tower.tsx lines 117-126): clear the
label when the frequency is nonpositive; otherwise refresh the label and
the timestamp once at least 1000 ms have passed.  The label text for a
positive frequency is getNoteName, parametrized here as nameOf because it
goes through the real logarithm. -/
def sessionNoteEffect (nameOf : ℚ → String) (now : ℚ) (s : SessionState) : SessionState :=
  if s.pitch ≤ 0 then { s with displayedNote := "" }
  else if now - s.lastNoteUpdate ≥ 1000 then
    { s with displayedNote := nameOf s.pitch, lastNoteUpdate := now }
  else s

/-- One render of the Tower after a state change: the position effect
followed by the note-label effect. -/
def renderAfter (nn : ℚ → ℤ) (low high : List ScaleTone) (nameOf : ℚ → String)
    (now : ℚ) (s : SessionState) : SessionState :=
  sessionNoteEffect nameOf now (sessionPositionEffect nn low high s)

/-! ### Helper lemmas about warp -/

theorem warp_two_eq (x : ℚ) :
    warp x 2 = if x < 3/8 then x * (6/5)
      else if x > 5/8 then 11/20 + (x - 5/8) * (6/5)
      else 9/20 + (x - 3/8) * (2/5) := by
  unfold warp
  norm_num
  split_ifs <;> ring

theorem warp_of_ne_two (x : ℚ) (d : ℕ) (hd : d ≠ 2) : warp x d = x := by
  unfold warp
  rw [if_neg hd]

theorem warp_zero (d : ℕ) : warp 0 d = 0 := by
  by_cases hd : d = 2
  · subst hd; rw [warp_two_eq]; norm_num
  · rw [warp_of_ne_two _ _ hd]

theorem warp_one (d : ℕ) : warp 1 d = 1 := by
  by_cases hd : d = 2
  · subst hd; rw [warp_two_eq]; norm_num
  · rw [warp_of_ne_two _ _ hd]

theorem warp_mem_unit (x : ℚ) (d : ℕ) (h0 : 0 ≤ x) (h1 : x ≤ 1) :
    0 ≤ warp x d ∧ warp x d ≤ 1 := by
  by_cases hd : d = 2
  · subst hd
    rw [warp_two_eq]
    split_ifs <;> constructor <;> linarith
  · rw [warp_of_ne_two _ _ hd]
    exact ⟨h0, h1⟩

theorem warp_two_mono (x y : ℚ) (hxy : x ≤ y) : warp x 2 ≤ warp y 2 := by
  rw [warp_two_eq, warp_two_eq]
  split_ifs <;> linarith

/-- Lipschitz-style bound used for the boundary-continuity part of C4:
near either segment boundary the warp moves at most 6/5 times as fast as
its argument. -/
theorem warp_two_near_bounds (x : ℚ) :
    |warp x 2 - warp (3/8) 2| ≤ (6/5) * |x - 3/8| ∧
    |warp x 2 - warp (5/8) 2| ≤ (6/5) * |x - 5/8| := by
  have h38 : warp (3/8) 2 = 9/20 := by rw [warp_two_eq]; norm_num
  have h58 : warp (5/8) 2 = 11/20 := by rw [warp_two_eq]; norm_num
  rw [h38, h58, warp_two_eq]
  constructor <;>
  · rw [abs_le]
    split_ifs <;>
      constructor <;>
      cases abs_cases (x - 3/8) <;>
      cases abs_cases (x - 5/8) <;>
      linarith

/-!  Claim C4  -/

/-- C4: the warp function satisfies warp(0,2)=0, warp(0.375,2)=0.45,
warp(0.625,2)=0.55, warp(1,2)=1, is continuous at the two segment
boundaries (stated in epsilon-delta form over ℚ) and monotonically
non-decreasing over [0,1], and for every semitone distance d other than 2
it is the identity. -/
theorem C4_warp_properties :
    warp 0 2 = 0 ∧ warp (3/8) 2 = 9/20 ∧ warp (5/8) 2 = 11/20 ∧ warp 1 2 = 1 ∧
    (∀ x y : ℚ, 0 ≤ x → x ≤ y → y ≤ 1 → warp x 2 ≤ warp y 2) ∧
    (∀ ε : ℚ, 0 < ε → ∃ δ : ℚ, 0 < δ ∧
      (∀ x : ℚ, |x - 3/8| < δ → |warp x 2 - warp (3/8) 2| < ε) ∧
      (∀ x : ℚ, |x - 5/8| < δ → |warp x 2 - warp (5/8) 2| < ε)) ∧
    (∀ (x : ℚ) (d : ℕ), d ≠ 2 → warp x d = x) := by
  refine ⟨warp_zero 2, ?_, ?_, warp_one 2, ?_, ?_, ?_⟩
  · rw [warp_two_eq]; norm_num
  · rw [warp_two_eq]; norm_num
  · intro x y _ hxy _
    exact warp_two_mono x y hxy
  · intro ε hε
    refine ⟨ε/2, by linarith, ?_, ?_⟩
    · intro x hx
      have hb := (warp_two_near_bounds x).1
      have habs : |x - 3/8| ≥ 0 := abs_nonneg _
      calc |warp x 2 - warp (3/8) 2| ≤ (6/5) * |x - 3/8| := hb
        _ < ε := by linarith
    · intro x hx
      have hb := (warp_two_near_bounds x).2
      have habs : |x - 5/8| ≥ 0 := abs_nonneg _
      calc |warp x 2 - warp (5/8) 2| ≤ (6/5) * |x - 5/8| := hb
        _ < ε := by linarith
  · intro x d hd
    exact warp_of_ne_two x d hd

/-- C4 witness: the monotonicity, continuity and identity parts of
C4_warp_properties applied at concrete inputs. -/
theorem C4_warp_properties_witness :
    warp (1/2) 2 ≤ warp (3/5) 2 ∧
    (∃ δ : ℚ, 0 < δ ∧
      (∀ x : ℚ, |x - 3/8| < δ → |warp x 2 - warp (3/8) 2| < 1) ∧
      (∀ x : ℚ, |x - 5/8| < δ → |warp x 2 - warp (5/8) 2| < 1)) ∧
    warp (1/3) 5 = 1/3 :=
  ⟨C4_warp_properties.2.2.2.2.1 (1/2) (3/5) (by norm_num) (by norm_num) (by norm_num),
   C4_warp_properties.2.2.2.2.2.1 1 (by norm_num),
   C4_warp_properties.2.2.2.2.2.2 (1/3) 5 (by norm_num)⟩

/-! ### Helper lemmas about the bracketing loop -/

/-- Any pair returned by findBracket is an adjacent pair of the scale list
whose frequencies enclose the query frequency. -/
theorem findBracket_spec (freq : ℚ) :
    ∀ (l : List ScaleTone) (a b : ScaleTone), findBracket freq l = some (a, b) →
      ∃ i : ℕ, l.get? i = some a ∧ l.get? (i + 1) = some b ∧ a.freq ≤ freq ∧ freq ≤ b.freq
  | [], a, b => by simp [findBracket]
  | [x], a, b => by simp [findBracket]
  | x :: y :: rest, a, b => by
      unfold findBracket
      split_ifs with h
      · intro heq
        rw [Option.some.injEq, Prod.mk.injEq] at heq
        obtain ⟨rfl, rfl⟩ := heq
        exact ⟨0, rfl, rfl, h.1, h.2⟩
      · intro heq
        obtain ⟨i, h1, h2, h3, h4⟩ := findBracket_spec freq (y :: rest) a b heq
        exact ⟨i + 1, h1, h2, h3, h4⟩

/-- On a strictly increasing scale list, querying the exact frequency of the
tone at index j + 1 makes findBracket return the pair at (j, j + 1). -/
theorem findBracket_adjacent :
    ∀ (l : List ScaleTone), l.Pairwise (fun a b => a.freq < b.freq) →
      ∀ (j : ℕ) (s t : ScaleTone), l.get? j = some s → l.get? (j + 1) = some t →
        findBracket t.freq l = some (s, t)
  | [], _, j, s, t => by simp
  | [x], _, j, s, t => by
      intro _ ht
      rcases j with _ | j <;> simp at ht
  | x :: y :: rest, hp, 0, s, t => by
      intro hs ht
      rw [List.get?_cons_zero, Option.some.injEq] at hs
      rw [List.get?_cons_succ, List.get?_cons_zero, Option.some.injEq] at ht
      have hxy : x.freq < y.freq := (List.pairwise_cons.mp hp).1 y (by simp)
      rw [← hs, ← ht]
      unfold findBracket
      rw [if_pos ⟨le_of_lt hxy, le_refl _⟩]
  | x :: y :: rest, hp, j + 1, s, t => by
      intro hs ht
      rw [List.get?_cons_succ] at hs ht
      have hp2 : (y :: rest).Pairwise (fun a b => a.freq < b.freq) :=
        (List.pairwise_cons.mp hp).2
      have htmem : t ∈ rest := by
        rw [List.get?_cons_succ] at ht
        exact List.get?_mem ht
      have hyt : y.freq < t.freq := (List.pairwise_cons.mp hp2).1 t htmem
      unfold findBracket
      rw [if_neg (by push_neg; intro _; linarith)]
      exact findBracket_adjacent (y :: rest) hp2 j s t hs ht

theorem getD_eq_get_of_lt (l : List ScaleTone) (n : ℕ) (d : ScaleTone)
    (h : n < l.length) : l.getD n d = l.get ⟨n, h⟩ := by
  simp [List.getD_eq_getElem?_getD, List.getElem?_eq_getElem h, List.get_eq_getElem]

/-- Every position produced by calculateScalePosition on a well-formed scale
lies in the closed interval [0, 7]. -/
theorem calculateScalePosition_range (nn : ℚ → ℤ) (freq : ℚ) (scale : List ScaleTone)
    (hwf : wellFormedScale scale) (p : ℚ)
    (hp : calculateScalePosition nn freq scale = some p) : 0 ≤ p ∧ p ≤ 7 := by
  obtain ⟨hlen, hidx, hpair⟩ := hwf
  unfold calculateScalePosition at hp
  rcases hfb : findBracket freq scale with _ | ⟨cur, next⟩ <;> rw [hfb] at hp <;>
    dsimp only at hp
  · split_ifs at hp
    · rw [Option.some.injEq] at hp; subst hp; norm_num
    · rw [Option.some.injEq] at hp; subst hp; norm_num
  · split_ifs at hp
    rw [Option.some.injEq] at hp
    subst hp
    obtain ⟨i, h1, h2, h3, h4⟩ := findBracket_spec freq scale cur next hfb
    have hi1 : i + 1 < scale.length := (List.get?_eq_some.mp h2).1
    have hi : i < scale.length := by omega
    have hcur : cur = scale.get ⟨i, hi⟩ := by
      rw [List.get?_eq_get hi, Option.some.injEq] at h1
      exact h1.symm
    have hnext : next = scale.get ⟨i + 1, hi1⟩ := by
      rw [List.get?_eq_get hi1, Option.some.injEq] at h2
      exact h2.symm
    have hlt : cur.freq < next.freq := by
      rw [hcur, hnext]
      exact List.pairwise_iff_get.mp hpair ⟨i, hi⟩ ⟨i + 1, hi1⟩ (by simp)
    have hidxcur : cur.index = i := by rw [hcur]; exact hidx ⟨i, hi⟩
    have hile : i ≤ 6 := by omega
    have hfrac0 : 0 ≤ (freq - cur.freq) / (next.freq - cur.freq) :=
      div_nonneg (by linarith) (by linarith)
    have hfrac1 : (freq - cur.freq) / (next.freq - cur.freq) ≤ 1 := by
      rw [div_le_one (by linarith)]
      linarith
    have hw := warp_mem_unit ((freq - cur.freq) / (next.freq - cur.freq))
      ((nn next.freq - nn cur.freq).natAbs) hfrac0 hfrac1
    unfold getWarpedFraction
    have hcast : (cur.index : ℚ) ≤ 6 := by
      rw [hidxcur]
      exact_mod_cast hile
    constructor
    · have : (0 : ℚ) ≤ (cur.index : ℚ) := Nat.cast_nonneg _
      linarith [hw.1]
    · linarith [hw.2]

/-- Every position produced by getPosition on well-formed scales lies in
the closed interval [0, 7]. -/
theorem getPosition_range (nn : ℚ → ℤ) (low high : List ScaleTone)
    (prev : Option ℚ) (freq : ℚ)
    (hl : wellFormedScale low) (hh : wellFormedScale high) (p : ℚ)
    (hp : getPosition nn low high prev freq = some p) : 0 ≤ p ∧ p ≤ 7 := by
  unfold getPosition at hp
  split_ifs at hp
  rcases hcl : calculateScalePosition nn freq low with _ | l <;>
    rcases hch : calculateScalePosition nn freq high with _ | h <;>
    rw [hcl, hch] at hp
  · simp at hp
  · rw [Option.some.injEq] at hp
    subst hp
    exact calculateScalePosition_range nn freq high hh _ hch
  · rw [Option.some.injEq] at hp
    subst hp
    exact calculateScalePosition_range nn freq low hl _ hcl
  · rcases prev with _ | q
    · rw [Option.some.injEq] at hp
      subst hp
      exact calculateScalePosition_range nn freq low hl _ hcl
    · simp only at hp
      split_ifs at hp <;> rw [Option.some.injEq] at hp <;> subst hp
      · exact calculateScalePosition_range nn freq low hl _ hcl
      · exact calculateScalePosition_range nn freq high hh _ hch

/-!  Claim C7  -/

/-- C7: for every well-formed scale definition (8 tones with strictly
increasing frequencies, tone i carrying index i) and every frequency that
exactly equals the frequency of tone j, calculateScalePosition returns
exactly the integer j (zero fractional part), for every choice of the
MIDI-rounding parameter. -/
theorem C7_exact_tone_snap (nn : ℚ → ℤ) (scale : List ScaleTone)
    (hwf : wellFormedScale scale) (j : ℕ) (t : ScaleTone)
    (ht : scale.get? j = some t) :
    calculateScalePosition nn t.freq scale = some (j : ℚ) := by
  obtain ⟨hlen, hidx, hpair⟩ := hwf
  have hj : j < scale.length := (List.get?_eq_some.mp ht).1
  have h0len : 0 < scale.length := by omega
  have h7len : scale.length - 1 < scale.length := by omega
  have hgetD0 : scale.getD 0 ⟨0, 0⟩ = scale.get ⟨0, h0len⟩ := getD_eq_get_of_lt _ _ _ h0len
  have hgetD7 : scale.getD (scale.length - 1) ⟨0, 0⟩ = scale.get ⟨scale.length - 1, h7len⟩ :=
    getD_eq_get_of_lt _ _ _ h7len
  have htget : t = scale.get ⟨j, hj⟩ := by
    rw [List.get?_eq_get hj, Option.some.injEq] at ht
    exact ht.symm
  have hmin : (scale.get ⟨0, h0len⟩).freq ≤ t.freq := by
    rcases Nat.eq_zero_or_pos j with h | h
    · rw [htget]
      subst h
      exact le_refl _
    · refine le_of_lt ?_
      rw [htget]
      exact List.pairwise_iff_get.mp hpair ⟨0, h0len⟩ ⟨j, hj⟩ (Fin.mk_lt_mk.mpr h)
  have hmax : t.freq ≤ (scale.get ⟨scale.length - 1, h7len⟩).freq := by
    rcases Nat.lt_or_ge j (scale.length - 1) with h | h
    · refine le_of_lt ?_
      rw [htget]
      exact List.pairwise_iff_get.mp hpair ⟨j, hj⟩ ⟨scale.length - 1, h7len⟩ (Fin.mk_lt_mk.mpr h)
    · have hje : j = scale.length - 1 := by omega
      rw [htget]
      subst hje
      exact le_refl _
  have houter : ¬(t.freq < (scale.getD 0 ⟨0, 0⟩).freq - 15 ∨
      t.freq > (scale.getD (scale.length - 1) ⟨0, 0⟩).freq + 15) := by
    rw [hgetD0, hgetD7]
    push_neg
    constructor <;> linarith
  unfold calculateScalePosition
  rw [if_neg houter]
  rcases Nat.eq_zero_or_pos j with hj0 | hj1
  · subst hj0
    rcases scale with _ | ⟨a, tail⟩
    · simp at hlen
    rcases tail with _ | ⟨b, rest⟩
    · simp at hlen
    rw [List.get?_cons_zero, Option.some.injEq] at ht
    have hab : a.freq < b.freq := (List.pairwise_cons.mp hpair).1 b (by simp)
    unfold findBracket
    rw [if_pos ⟨by rw [← ht], by rw [← ht]; exact le_of_lt hab⟩]
    dsimp only
    rw [Option.some.injEq]
    have hidx0 : a.index = 0 := hidx ⟨0, by simp⟩
    rw [hidx0, ← ht]
    unfold getWarpedFraction
    rw [sub_self, zero_div, warp_zero]
    norm_num
  · have hj1' : j - 1 < scale.length := by omega
    have hs : scale.get? (j - 1) = some (scale.get ⟨j - 1, hj1'⟩) := List.get?_eq_get hj1'
    have hadj := findBracket_adjacent scale hpair (j - 1) (scale.get ⟨j - 1, hj1'⟩) t hs
      (by rw [Nat.sub_add_cancel hj1]; exact ht)
    rw [hadj]
    dsimp only
    rw [Option.some.injEq]
    have hslt : (scale.get ⟨j - 1, hj1'⟩).freq < t.freq := by
      rw [htget]
      exact List.pairwise_iff_get.mp hpair ⟨j - 1, hj1'⟩ ⟨j, hj⟩ (Fin.mk_lt_mk.mpr (by omega))
    have hidxs : (scale.get ⟨j - 1, hj1'⟩).index = j - 1 := hidx ⟨j - 1, hj1'⟩
    unfold getWarpedFraction
    rw [div_self (sub_pos.mpr hslt).ne', warp_one, hidxs]
    push_cast [Nat.cast_sub (by omega : 1 ≤ j)]
    ring

/-- C7 witness: the exact frequency of tone 2 of the concrete scale maps to
exactly position 2. -/
theorem C7_exact_tone_snap_witness :
    calculateScalePosition constNN (30 : ℚ) lowScaleEx = some 2 :=
  (C7_exact_tone_snap constNN lowScaleEx (by decide) 2 ⟨30, 2⟩ (by rfl)).trans (by norm_num)

/-!  Claim C5  -/

/-- C5: whenever a frequency is valid in both the low and the high scale
definition, getPosition returns the low-definition position if the stored
Continuity State exceeds 3.5, the high-definition position if it is 3.5 or
below, and defaults to the low-definition position when no Continuity
State exists yet. -/
theorem C5_overlap_hysteresis (nn : ℚ → ℤ) (low high : List ScaleTone) (freq : ℚ)
    (prev : Option ℚ) (pl ph : ℚ) (hf : 0 < freq)
    (hl : calculateScalePosition nn freq low = some pl)
    (hh : calculateScalePosition nn freq high = some ph) :
    getPosition nn low high prev freq =
      match prev with
      | none => some pl
      | some q => if q > 7/2 then some pl else some ph := by
  unfold getPosition
  rw [if_neg (not_le.mpr hf), hl, hh]
  cases prev <;> rfl

/-- C5 witness: with the concrete overlap frequency 80 (position 7 of the
low scale, position 0 of the high scale), Continuity State 7 keeps the low
result, Continuity State 0 switches to the high result, and an absent
Continuity State defaults to the low result. -/
theorem C5_overlap_hysteresis_witness :
    getPosition constNN lowScaleEx highScaleEx (some 7) 80 = some 7 ∧
    getPosition constNN lowScaleEx highScaleEx (some 0) 80 = some 0 ∧
    getPosition constNN lowScaleEx highScaleEx none 80 = some 7 :=
  ⟨(C5_overlap_hysteresis constNN lowScaleEx highScaleEx 80 (some 7) 7 0
      (by norm_num)
      (by norm_num [calculateScalePosition, lowScaleEx, findBracket, getWarpedFraction, warp, constNN])
      (by norm_num [calculateScalePosition, highScaleEx, findBracket, getWarpedFraction, warp, constNN])).trans
      (by norm_num),
   (C5_overlap_hysteresis constNN lowScaleEx highScaleEx 80 (some 0) 7 0
      (by norm_num)
      (by norm_num [calculateScalePosition, lowScaleEx, findBracket, getWarpedFraction, warp, constNN])
      (by norm_num [calculateScalePosition, highScaleEx, findBracket, getWarpedFraction, warp, constNN])).trans
      (by norm_num),
   (C5_overlap_hysteresis constNN lowScaleEx highScaleEx 80 none 7 0
      (by norm_num)
      (by norm_num [calculateScalePosition, lowScaleEx, findBracket, getWarpedFraction, warp, constNN])
      (by norm_num [calculateScalePosition, highScaleEx, findBracket, getWarpedFraction, warp, constNN])).trans
      (by norm_num)⟩

/-!  Claim C8  -/

/-- C8: for every input frequency and every pair of well-formed 8-tone
scale definitions with strictly increasing frequencies, getPosition
returns either none or a number in the closed interval from 0 to 7. -/
theorem C8_position_in_range (nn : ℚ → ℤ) (low high : List ScaleTone)
    (prev : Option ℚ) (freq : ℚ) (hl : wellFormedScale low) (hh : wellFormedScale high)
    (p : ℚ) (hp : getPosition nn low high prev freq = some p) :
    0 ≤ p ∧ p ≤ 7 :=
  getPosition_range nn low high prev freq hl hh p hp

/-- C8 witness: frequency 35 maps to position 5/2 on the concrete scales,
and the theorem puts that value inside the interval. -/
theorem C8_position_in_range_witness : (0 : ℚ) ≤ 5/2 ∧ (5/2 : ℚ) ≤ 7 :=
  C8_position_in_range constNN lowScaleEx highScaleEx none 35
    (by decide) (by decide) (5/2)
    (by norm_num [getPosition, calculateScalePosition, lowScaleEx, highScaleEx, findBracket,
      getWarpedFraction, warp, constNN])

/-!  Claim C6  -/

/-- C6: after a poll, the Continuity State update (the Tower effect) stores
the new position exactly when it is non-null, leaves the stored value
unchanged when the poll yields null, and the display-only rest value -0.5
(shown while listening with a null position) is never written into the
Continuity State. -/
theorem C6_continuity_state_update (nn : ℚ → ℤ) (low high : List ScaleTone)
    (prev : Option ℚ) (freq : ℚ)
    (hl : wellFormedScale low) (hh : wellFormedScale high) :
    (∀ p : ℚ, getPosition nn low high prev freq = some p →
        towerPositionEffect (getPosition nn low high prev freq) prev = some p) ∧
    (getPosition nn low high prev freq = none →
        towerPositionEffect (getPosition nn low high prev freq) prev = prev ∧
        renderPosition (getPosition nn low high prev freq) true = some (-(1/2))) ∧
    (prev ≠ some (-(1/2)) →
        towerPositionEffect (getPosition nn low high prev freq) prev ≠ some (-(1/2))) := by
  refine ⟨?_, ?_, ?_⟩
  · intro p hp
    rw [hp]
    rfl
  · intro hp
    rw [hp]
    exact ⟨rfl, rfl⟩
  · intro hprev
    rcases hpos : getPosition nn low high prev freq with _ | p
    · exact hprev
    · have hrange := getPosition_range nn low high prev freq hl hh p hpos
      intro hc
      simp only [towerPositionEffect, Option.some.injEq] at hc
      subst hc
      linarith [hrange.1]

/-- C6 witness: on the concrete scales, a null poll (silence sentinel)
leaves the Continuity State untouched while the rest position is shown,
and a non-null poll never writes -0.5. -/
theorem C6_continuity_state_update_witness :
    towerPositionEffect (getPosition constNN lowScaleEx highScaleEx (some 1) 35) (some 1) ≠
      some (-(1/2)) ∧
    (towerPositionEffect (getPosition constNN lowScaleEx highScaleEx (some 1) (-1)) (some 1) =
      some 1 ∧
     renderPosition (getPosition constNN lowScaleEx highScaleEx (some 1) (-1)) true =
      some (-(1/2))) :=
  ⟨(C6_continuity_state_update constNN lowScaleEx highScaleEx (some 1) 35
      (by decide) (by decide)).2.2 (by norm_num),
   (C6_continuity_state_update constNN lowScaleEx highScaleEx (some 1) (-1)
      (by decide) (by decide)).2.1 (by norm_num [getPosition])⟩

/-!  Claim C10  -/

/-- C10: for every frequency at most 0 (in particular the no-pitch
sentinel -1), getPosition returns null regardless of the scale definitions
and of the stored Continuity State, and therefore the poll leaves the
Continuity State exactly unchanged. -/
theorem C10_no_pitch_null (nn : ℚ → ℤ) (low high : List ScaleTone)
    (prev : Option ℚ) (freq : ℚ) (hf : freq ≤ 0) :
    getPosition nn low high prev freq = none ∧
    towerPositionEffect (getPosition nn low high prev freq) prev = prev := by
  have h1 : getPosition nn low high prev freq = none := by
    unfold getPosition
    rw [if_pos hf]
  exact ⟨h1, by rw [h1]; rfl⟩

/-- C10 witness: the sentinel -1 yields a null position and an unchanged
Continuity State on the concrete scales. -/
theorem C10_no_pitch_null_witness :
    getPosition constNN lowScaleEx highScaleEx (some 3) (-1) = none ∧
    towerPositionEffect (getPosition constNN lowScaleEx highScaleEx (some 3) (-1)) (some 3) =
      some 3 :=
  C10_no_pitch_null constNN lowScaleEx highScaleEx (some 3) (-1) (by norm_num)

/-!  Claim C9  -/

/-- C9: the Note Namer rounds the fractional note number n = 69 +
12*log2(f/440) to the nearest note; exactly when the rounded pitch class
is a narrow one (table indices 1, 3, 8, 10: C#, Eb, G#, Bb) and the
deviation exceeds 0.25 in absolute value, the rounded value moves one
semitone toward n before the pitch class and the octave,
floor(rounded / 12) - 1, are recomputed.  Consequently note number 69
(440 Hz) yields "A4", and a note number 0.3 above any C#-class integer k
is reassigned to "D" with the octave computed from k + 1 by the same
logic. -/
theorem C9_note_namer :
    getNoteNameQ 69 = "A4" ∧
    (∀ n : ℚ,
      ((([1, 3, 8, 10] : List ℤ).contains (((jsRound n % 12) + 12) % 12)) ∧
          |n - (jsRound n : ℚ)| > 1/4 →
        getNoteNameQ n =
          renderFromRounded (if n - (jsRound n : ℚ) > 0 then jsRound n + 1 else jsRound n - 1)) ∧
      (¬((([1, 3, 8, 10] : List ℤ).contains (((jsRound n % 12) + 12) % 12)) ∧
          |n - (jsRound n : ℚ)| > 1/4) →
        getNoteNameQ n = renderFromRounded (jsRound n))) ∧
    (∀ k : ℤ, ((k % 12) + 12) % 12 = 1 →
      getNoteNameQ ((k : ℚ) + 3/10) = "D" ++ toString (⌊((k + 1 : ℤ) : ℚ) / 12⌋ - 1)) := by
  have hgen : ∀ n : ℚ,
      ((([1, 3, 8, 10] : List ℤ).contains (((jsRound n % 12) + 12) % 12)) ∧
          |n - (jsRound n : ℚ)| > 1/4 →
        getNoteNameQ n =
          renderFromRounded (if n - (jsRound n : ℚ) > 0 then jsRound n + 1 else jsRound n - 1)) ∧
      (¬((([1, 3, 8, 10] : List ℤ).contains (((jsRound n % 12) + 12) % 12)) ∧
          |n - (jsRound n : ℚ)| > 1/4) →
        getNoteNameQ n = renderFromRounded (jsRound n)) := by
    intro n
    constructor
    · intro hc
      dsimp only [getNoteNameQ, renderFromRounded]
      rw [if_pos hc]
    · intro hc
      dsimp only [getNoteNameQ, renderFromRounded]
      rw [if_neg hc]
  have h69 : jsRound (69 : ℚ) = 69 := by
    unfold jsRound
    norm_num
  refine ⟨?_, hgen, ?_⟩
  · calc getNoteNameQ 69
        = renderFromRounded (jsRound 69) := (hgen 69).2 (by rw [h69]; norm_num)
      _ = renderFromRounded 69 := by rw [h69]
      _ = "A4" := by
          unfold renderFromRounded
          norm_num
          rfl
  · intro k hk
    have hfloor : jsRound ((k : ℚ) + 3/10) = k := by
      unfold jsRound
      rw [show ((k : ℚ) + 3/10) + 1/2 = (k : ℚ) + 4/5 by ring, Int.floor_int_add]
      norm_num
    have hdiff : ((k : ℚ) + 3/10) - ((jsRound ((k : ℚ) + 3/10) : ℤ) : ℚ) = 3/10 := by
      rw [hfloor]
      ring
    have hcond : (([1, 3, 8, 10] : List ℤ).contains
        (((jsRound ((k : ℚ) + 3/10) % 12) + 12) % 12)) ∧
        |((k : ℚ) + 3/10) - (jsRound ((k : ℚ) + 3/10) : ℚ)| > 1/4 := by
      constructor
      · rw [hfloor, hk]
        decide
      · rw [hdiff, abs_of_pos (by norm_num : (0 : ℚ) < 3/10)]
        norm_num
    rw [(hgen _).1 hcond, if_pos (by rw [hdiff]; norm_num), hfloor]
    unfold renderFromRounded
    have hmod : (((k + 1) % 12) + 12) % 12 = 2 := by omega
    rw [hmod]
    rfl

/-- C9 witness: the narrow-class branch at note number 61.3 (0.3 above the
C-sharp note number 61) yields D4, and the plain branch at note number 60
yields C4. -/
theorem C9_note_namer_witness :
    getNoteNameQ (((61 : ℤ) : ℚ) + 3/10) = "D4" ∧ getNoteNameQ 60 = "C4" := by
  constructor
  · rw [C9_note_namer.2.2 61 (by norm_num)]
    norm_num
    rfl
  · have h60 : jsRound (60 : ℚ) = 60 := by norm_num [jsRound]
    rw [(C9_note_namer.2.1 60).2 (by rw [h60]; norm_num), h60]
    unfold renderFromRounded
    norm_num
    rfl

/-! ### Helper lemmas about the autocorrelation scan -/

/-- The similarity at lag 0 is always exactly 1: the summed terms are all
of the form the absolute value of x - x. -/
theorem similarityAt_zero (b : List ℚ) (m : ℕ) : similarityAt b m 0 = 1 := by
  unfold similarityAt similaritySum
  have h : ((List.range m).map fun i => |b.getD i 0 - b.getD (i + 0) 0|).sum = 0 := by
    refine List.sum_eq_zero ?_
    intro x hx
    simp only [List.mem_map] at hx
    obtain ⟨i, _, rfl⟩ := hx
    simp
  rw [h, zero_div, sub_zero]

/-- Lag 0 never qualifies: its similarity is 1 and the initial
lastCorrelation is also 1, so the strict increase test fails. -/
theorem not_qualifiesAt_zero (b : List ℚ) (m : ℕ) : ¬ qualifiesAt b m 0 := by
  unfold qualifiesAt
  rw [similarityAt_zero]
  simp

theorem zget_isSome (l : List ℚ) (i : ℤ) (h0 : 0 ≤ i) (hlt : i.toNat < l.length) :
    ∃ v, zget l i = some v :=
  ⟨l.get ⟨i.toNat, hlt⟩, by unfold zget; rw [if_pos h0]; exact List.get?_eq_get hlt⟩

/-- The scan always produces a value: whenever the early-return branch
fires, a qualifying peak was found at some lag at least 1 and strictly
before the current offset, so the three correlations reads at
bestOffset - 1, bestOffset, bestOffset + 1 are all in range. -/
theorem autoScan_isSome (b : List ℚ) (sampleRate : ℚ) (m : ℕ) :
    ∀ (fuel offset : ℕ) (st : ScanState),
      offset + fuel = m →
      st.correlations.length = m →
      (st.foundGood = true → 1 ≤ st.bestOffset ∧ st.bestOffset < (offset : ℤ)) →
      (st.foundGood = false → st.bestCorrelation = 0) →
      (offset = 0 → st.lastCorrelation = 1) →
      (autoScan b sampleRate m fuel offset st).isSome = true := by
  intro fuel
  induction fuel with
  | zero =>
      intro offset st _ _ _ _ _
      simp [autoScan]
  | succ fuel ih =>
      intro offset st hsum hlen hfound hbest hlast
      have hoffm : offset < m := by omega
      simp only [autoScan]
      split_ifs with hq hbc hf
      · have hoff : offset ≠ 0 := by
          intro h0
          rw [h0] at hq
          rw [similarityAt_zero, hlast h0] at hq
          exact lt_irrefl 1 hq.2
        refine ih (offset + 1) _ (by omega) (by simpa using hlen) ?_ ?_ ?_
        · intro _
          dsimp only
          constructor
          · omega
          · omega
        · intro h
          dsimp only at h
          exact absurd h (by simp)
        · intro h
          exact absurd h (Nat.succ_ne_zero offset)
      · have hfg : st.foundGood = true := by
          cases hfgc : st.foundGood
          · exfalso
            have h0 : st.bestCorrelation = 0 := hbest hfgc
            rw [h0] at hbc
            have hle := not_lt.mp hbc
            have := hq.1
            linarith
          · rfl
        obtain ⟨hb1, hb2⟩ := hfound hfg
        refine ih (offset + 1) _ (by omega) (by simpa using hlen) ?_ ?_ ?_
        · intro _
          dsimp only
          constructor
          · exact hb1
          · push_cast
            omega
        · intro h
          dsimp only at h
          exact absurd h (by simp)
        · intro h
          exact absurd h (Nat.succ_ne_zero offset)
      · obtain ⟨hb1, hb2⟩ := hfound hf
        have hlen1 : (st.correlations.set offset (similarityAt b m offset)).length = m := by
          simpa using hlen
        obtain ⟨v1, hv1⟩ := zget_isSome (st.correlations.set offset (similarityAt b m offset))
          (st.bestOffset + 1) (by omega) (by omega)
        obtain ⟨v2, hv2⟩ := zget_isSome (st.correlations.set offset (similarityAt b m offset))
          (st.bestOffset - 1) (by omega) (by omega)
        obtain ⟨v3, hv3⟩ := zget_isSome (st.correlations.set offset (similarityAt b m offset))
          st.bestOffset (by omega) (by omega)
        unfold interpolate
        dsimp only
        rw [hv1, hv2, hv3]
        rfl
      · refine ih (offset + 1) _ (by omega) (by simpa using hlen) ?_ ?_ ?_
        · intro h
          dsimp only at h
          exact absurd h hf
        · intro _
          dsimp only
          exact hbest (by simpa using (Bool.not_eq_true _).mp hf)
        · intro h
          exact absurd h (Nat.succ_ne_zero offset)

/-- A scan in which no remaining lag qualifies keeps foundGood false and
bestCorrelation at 0 and therefore finishes with the sentinel -1. -/
theorem autoScan_no_qualify (b : List ℚ) (sampleRate : ℚ) (m : ℕ) :
    ∀ (fuel offset : ℕ) (st : ScanState),
      st.foundGood = false →
      st.bestCorrelation = 0 →
      st.lastCorrelation = (if offset = 0 then 1 else similarityAt b m (offset - 1)) →
      (∀ o : ℕ, offset ≤ o → o < offset + fuel → ¬ qualifiesAt b m o) →
      autoScan b sampleRate m fuel offset st = some (-1) := by
  intro fuel
  induction fuel with
  | zero =>
      intro offset st _ hbest _ _
      simp only [autoScan]
      unfold scanFinish
      rw [hbest, if_neg (by norm_num)]
  | succ fuel ih =>
      intro offset st hfg hbest hlast hno
      simp only [autoScan]
      have hnq : ¬(similarityAt b m offset > 9/10 ∧
          similarityAt b m offset > st.lastCorrelation) := by
        intro hc
        refine hno offset le_rfl (by omega) ⟨hc.1, ?_⟩
        rw [← hlast]
        exact hc.2
      rw [if_neg hnq, if_neg (by rw [hfg]; exact Bool.false_ne_true)]
      refine ih (offset + 1) _ hfg hbest ?_ ?_
      · dsimp only
        rw [if_neg (Nat.succ_ne_zero offset)]
        simp
      · intro o h1 h2
        exact hno o (by omega) (by omega)

/-- If no lag of the whole scan qualifies, autoCorrelate returns the
sentinel -1 (the fallback branch needs bestCorrelation > 0.01, which can
only happen at a qualifying lag). -/
theorem autoCorrelate_of_no_qualify (b : List ℚ) (sampleRate : ℚ)
    (h : ∀ o : ℕ, o < b.length / 2 → ¬ qualifiesAt b (b.length / 2) o) :
    autoCorrelate b sampleRate = some (-1) := by
  unfold autoCorrelate
  split_ifs with hrms
  · rfl
  · refine autoScan_no_qualify b sampleRate (b.length / 2) (b.length / 2) 0
      (initScanState (b.length / 2)) rfl rfl ?_ ?_
    · simp [initScanState]
    · intro o h1 h2
      exact h o (by omega)

/-- Concrete evaluation for the C1 frame: the similarity at lag 1 of the
alternating frame [1, -1, 1, -1] is -1. -/
theorem exFrame_sim_at_one : similarityAt [(1 : ℚ), -1, 1, -1] 2 1 = -1 := by
  unfold similarityAt similaritySum
  rw [show List.range 2 = [0, 1] from rfl]
  simp only [List.map_cons, List.map_nil, List.sum_cons, List.sum_nil]
  rw [show ([(1 : ℚ), -1, 1, -1].getD (1 + 1) 0) = 1 from rfl]
  norm_num

/-- No lag of the scan over the frame [1, -1, 1, -1] qualifies: lag 0
never can, and lag 1 has similarity -1, far below the 0.9 threshold. -/
theorem exFrame_no_qualify : ∀ o : ℕ, o < 2 → ¬ qualifiesAt [(1 : ℚ), -1, 1, -1] 2 o := by
  intro o ho
  interval_cases o
  · exact not_qualifiesAt_zero _ _
  · unfold qualifiesAt
    rw [exFrame_sim_at_one]
    intro hc
    have h1 := hc.1
    norm_num at h1

/-!  Claim C1  -/

/-- C1 counterexample: for the concrete frame [1, -1, 1, -1] (RMS = 1) at
sample rate 8, no lag ever qualifies during the scan, and the best
similarity seen over the whole scan is 1 (attained at lag 0), far above
0.01.  The claim then demands the fallback frequency
sampleRate / best_lag rather than -1, but autoCorrelate returns the
no-pitch sentinel -1: the code's bestCorrelation variable is updated only
at qualifying lags, so it is 0, not the best similarity of the whole
scan. -/
theorem C1_fallback_counterexample :
    (∀ o : ℕ, o < 2 → ¬ qualifiesAt [(1 : ℚ), -1, 1, -1] 2 o) ∧
    similarityAt [(1 : ℚ), -1, 1, -1] 2 0 = 1 ∧ ((1 : ℚ) > 1/100) ∧
    autoCorrelate [(1 : ℚ), -1, 1, -1] 8 = some (-1) :=
  ⟨exFrame_no_qualify, similarityAt_zero _ _, by norm_num,
   autoCorrelate_of_no_qualify _ _ (fun o ho => exFrame_no_qualify o ho)⟩

/-- C1 amended: if no qualifying peak (similarity above 0.9 and increasing
versus the previous lag) is ever found over the scan, the estimator
returns the no-pitch sentinel -1 regardless of the similarities seen,
because the tracked best similarity is updated only at qualifying lags
and stays 0; the fallback sampleRate / best_lag therefore fires only when
a qualifying peak was found and the scan ran to completion without a
subsequent descent. -/
theorem C1_no_qualify_no_pitch (b : List ℚ) (sampleRate : ℚ)
    (h : ∀ o : ℕ, o < b.length / 2 → ¬ qualifiesAt b (b.length / 2) o) :
    autoCorrelate b sampleRate = some (-1) :=
  autoCorrelate_of_no_qualify b sampleRate h

/-- C1 witness: the amended theorem applied to the concrete frame
[1, -1, 1, -1] at sample rate 8. -/
theorem C1_no_qualify_no_pitch_witness :
    autoCorrelate [(1 : ℚ), -1, 1, -1] 8 = some (-1) :=
  C1_no_qualify_no_pitch [(1 : ℚ), -1, 1, -1] 8 (fun o ho => exFrame_no_qualify o ho)

/-!  Claim C3  -/

/-- C3: degenerate inputs of the Pitch Estimator.  First conjunct: the
estimator is total and never performs an out-of-range read of the
correlations array — the parabolic-interpolation reads at bestOffset - 1,
bestOffset and bestOffset + 1 are always in range, because lag 0 can
never qualify, so whenever that branch runs the chosen lag is at least 1
(and below the current offset); a chosen lag of 0 at the interpolation
step is impossible, making that degenerate case vacuously resolved.
Second conjunct: a silent frame (RMS below 0.01, equivalently mean square
below 1/10000) yields the no-pitch sentinel -1 from getPitch and from
autoCorrelate.  Third conjunct: an empty or too-short frame (length at
most 3, hence at most one scan lag) yields -1. -/
theorem C3_degenerate_inputs (b : List ℚ) (sampleRate : ℚ) :
    (autoCorrelate b sampleRate).isSome = true ∧
    (rmsSqOf b < 1/10000 →
      getPitch true b sampleRate = some (-1) ∧ autoCorrelate b sampleRate = some (-1)) ∧
    (b.length ≤ 3 → autoCorrelate b sampleRate = some (-1)) := by
  refine ⟨?_, ?_, ?_⟩
  · unfold autoCorrelate
    split_ifs with hrms
    · rfl
    · exact autoScan_isSome b sampleRate _ _ 0 _ (by omega) (by simp [initScanState])
        (fun h => absurd h (by simp [initScanState])) (fun _ => rfl) (fun _ => rfl)
  · intro hsil
    have hauto : autoCorrelate b sampleRate = some (-1) := by
      rcases Nat.eq_zero_or_pos b.length with hb | hb
      · apply autoCorrelate_of_no_qualify
        intro o ho
        rw [hb] at ho
        exact absurd ho (by omega)
      · unfold autoCorrelate
        rw [if_pos ⟨hb, hsil⟩]
    refine ⟨?_, hauto⟩
    unfold getPitch
    rw [if_neg (by simp)]
    rcases Nat.eq_zero_or_pos b.length with hb | hb
    · rw [if_neg (by rw [hb]; simp)]
      exact hauto
    · rw [if_pos ⟨hb, hsil⟩]
  · intro hshort
    apply autoCorrelate_of_no_qualify
    intro o ho
    have ho0 : o = 0 := by omega
    subst ho0
    exact not_qualifiesAt_zero _ _

/-- C3 witness: the silence branch at the all-zero frame of length 4, and
the too-short branch at a loud single-sample frame. -/
theorem C3_degenerate_inputs_witness :
    getPitch true [(0 : ℚ), 0, 0, 0] 8 = some (-1) ∧
    autoCorrelate [(5 : ℚ)] 8 = some (-1) :=
  ⟨((C3_degenerate_inputs [(0 : ℚ), 0, 0, 0] 8).2.1 (by norm_num [rmsSqOf])).1,
   (C3_degenerate_inputs [(5 : ℚ)] 8).2.2 (by norm_num)⟩

/-!  Claim C2  -/

/-- C2 counterexample: stop a listening session whose Continuity State is
5 and whose rate-limiter timestamp is 1000.  After stopListening and the
following render (the published pitch is the sentinel -1), the Continuity
State is still 5 — not cleared back to absent — and the rate-limiter
timestamp is still 1000: stop() resets neither of them, so the transient
core state is not reset to its initial state as the claim requires. -/
theorem C2_stop_counterexample :
    (renderAfter constNN lowScaleEx highScaleEx (fun _ => "") 2000
        (stopListening ⟨true, true, true, true, true, 220, some 5, 1000, "A3"⟩)).prevPosition =
      some 5 ∧
    (renderAfter constNN lowScaleEx highScaleEx (fun _ => "") 2000
        (stopListening ⟨true, true, true, true, true, 220, some 5, 1000, "A3"⟩)).prevPosition ≠
      none ∧
    (renderAfter constNN lowScaleEx highScaleEx (fun _ => "") 2000
        (stopListening ⟨true, true, true, true, true, 220, some 5, 1000, "A3"⟩)).lastNoteUpdate =
      1000 := by
  refine ⟨?_, ?_, ?_⟩
  all_goals norm_num [renderAfter, sessionPositionEffect, sessionNoteEffect, stopListening,
    analyzerStop, getPosition, towerPositionEffect]
  all_goals simp

/-- C2 amended: stopListening releases the audio resources (disconnects
the media source, closes and nulls the audio context and the analyser),
clears the poll interval, leaves listening mode and resets the published
pitch to the sentinel -1, and the following render clears the displayed
note label; it is idempotent and harmless on an unstarted session.
However the Continuity State (prevPositionRef) and the note-label
rate-limiter timestamp (lastNoteUpdateRef) are left exactly unchanged —
they are not cleared back to their initial absent state. -/
theorem C2_stop_releases_but_keeps_refs (nn : ℚ → ℤ) (low high : List ScaleTone)
    (nameOf : ℚ → String) (now : ℚ) (s : SessionState) :
    (renderAfter nn low high nameOf now (stopListening s)).audioContextPresent = false ∧
    (renderAfter nn low high nameOf now (stopListening s)).analyserPresent = false ∧
    (renderAfter nn low high nameOf now (stopListening s)).mediaSourceConnected = false ∧
    (renderAfter nn low high nameOf now (stopListening s)).intervalActive = false ∧
    (renderAfter nn low high nameOf now (stopListening s)).isListening = false ∧
    (renderAfter nn low high nameOf now (stopListening s)).pitch = -1 ∧
    (renderAfter nn low high nameOf now (stopListening s)).displayedNote = "" ∧
    (renderAfter nn low high nameOf now (stopListening s)).prevPosition = s.prevPosition ∧
    (renderAfter nn low high nameOf now (stopListening s)).lastNoteUpdate = s.lastNoteUpdate ∧
    stopListening (stopListening s) = stopListening s := by
  refine ⟨?_, ?_, ?_, ?_, ?_, ?_, ?_, ?_, ?_, ?_⟩ <;>
    norm_num [renderAfter, sessionPositionEffect, sessionNoteEffect, stopListening,
      analyzerStop, getPosition, towerPositionEffect]
